import Mathlib

set_option maxRecDepth 8192

/-!
Verification of the price-estimation and manual-override core of the
`verselapp` repository.

The repository contains several variants of the pricing page.  The two
variants cited by the specification are embedded here:

* namespace `Part002`  — the page component in `src/unnamed/part_002`
  (eligibility rule, row classification, mean/median/CV aggregators,
  manual-override save/clear, adjustment-dialog initialisation);
* namespace `Precos`   — the page component in
  `src/app/(auth)/precos/page.tsx` (button state, selection toggling over a
  `Set`, save with justification validation).

Numbers are modelled as rationals (`ℚ`): every JavaScript number reaching
this logic is a finite decimal, and the specification states all numeric
rules over exact arithmetic.  The coefficient of variation uses a real
square root, so `cv` lands in `Option ℝ`.  `none` plays the role of
JavaScript `null` (and of NaN for string parsing).
-/

/-- Digit list to natural number, most significant digit first. -/
def digitsToNat (ds : List Char) : ℕ :=
  ds.foldl (fun acc c => 10 * acc + (c.toNat - '0'.toNat)) 0

/-- Leading and trailing whitespace removed, as `String.prototype.trim`. -/
def trimChars (cs : List Char) : List Char :=
  ((cs.dropWhile Char.isWhitespace).reverse.dropWhile Char.isWhitespace).reverse

/-- Trim of a string, modelling the JavaScript `.trim()` call. -/
def jsTrim (s : String) : String :=
  String.mk (trimChars s.data)

/-- Exponent part of a JavaScript decimal literal: an optional sign followed
by at least one digit. -/
def parseExponent (cs : List Char) : Option ℤ :=
  match cs with
  | '+' :: ds => if ds.isEmpty || !ds.all Char.isDigit then none else some (digitsToNat ds : ℤ)
  | '-' :: ds => if ds.isEmpty || !ds.all Char.isDigit then none else some (-(digitsToNat ds : ℤ))
  | ds => if ds.isEmpty || !ds.all Char.isDigit then none else some (digitsToNat ds : ℤ)

/-- Unsigned decimal literal `digits [. digits] [(e|E) exp]`; at least one
digit must be present around the decimal point. -/
def parseUnsigned (cs : List Char) : Option ℚ :=
  let intPart := cs.takeWhile Char.isDigit
  let rest := cs.dropWhile Char.isDigit
  match rest with
  | [] => if intPart.isEmpty then none else some (digitsToNat intPart : ℚ)
  | '.' :: fr =>
    let fracPart := fr.takeWhile Char.isDigit
    let rest2 := fr.dropWhile Char.isDigit
    if intPart.isEmpty && fracPart.isEmpty then none
    else
      let mant : ℚ := (digitsToNat intPart : ℚ) + (digitsToNat fracPart : ℚ) / (10 : ℚ) ^ fracPart.length
      match rest2 with
      | [] => some mant
      | 'e' :: er => (parseExponent er).map (fun e => mant * (10 : ℚ) ^ e)
      | 'E' :: er => (parseExponent er).map (fun e => mant * (10 : ℚ) ^ e)
      | _ => none
  | 'e' :: er =>
    if intPart.isEmpty then none
    else (parseExponent er).map (fun e => (digitsToNat intPart : ℚ) * (10 : ℚ) ^ e)
  | 'E' :: er =>
    if intPart.isEmpty then none
    else (parseExponent er).map (fun e => (digitsToNat intPart : ℚ) * (10 : ℚ) ^ e)
  | _ => none

/-- Model of the JavaScript `Number(string)` conversion on the decimal
fragment of its grammar: surrounding whitespace is ignored, the empty string
is `0`, otherwise an optionally signed decimal literal.  Strings outside this
grammar (including `Infinity` and hexadecimal/octal/binary literals, which
`parseBRL` would discard or never produces) are mapped to `none`, the role
played by NaN. -/
def jsNumber (s : String) : Option ℚ :=
  match trimChars s.data with
  | [] => some 0
  | '+' :: cs => parseUnsigned cs
  | '-' :: cs => (parseUnsigned cs).map (fun q => -q)
  | cs => parseUnsigned cs

/-- One optional whitespace character, the `\s?` tail of the currency regex. -/
def dropOneWs : List Char → List Char
  | [] => []
  | c :: rest => if c.isWhitespace then rest else c :: rest

/-- Removal of the first occurrence of `R$`/`r$` followed by at most one
whitespace character: the `.replace(/R\$\s?/i, "")` step. -/
def stripCurrency : List Char → List Char
  | c1 :: c2 :: rest =>
    if (c1 = 'R' ∨ c1 = 'r') ∧ c2 = '$' then dropOneWs rest
    else c1 :: stripCurrency (c2 :: rest)
  | l => l

/-- The localized currency parser `parseBRL`, identical in both page
variants: trim, strip the currency marker, drop `.` (thousands separator),
turn `,` into `.` (decimal separator), reject the empty string, then convert
with `Number` keeping only finite results. -/
def parseBRL (input : String) : Option ℚ :=
  let s := ((stripCurrency (trimChars input.data)).filter (fun c => c != '.')).map
    (fun c => if c = ',' then '.' else c)
  if s.isEmpty then none else jsNumber (String.mk s)

/-- Ascending sort, the `sort((a, b) => a - b)` calls of the source
(modelled by insertion sort, which computes the same sorted list as any
comparison sort). -/
def sortAsc {α : Type} [LinearOrder α] (l : List α) : List α :=
  l.insertionSort (fun a b => a ≤ b)

/-- Text of the canned justification `PADRAO_1` (identical in both variants). -/
def JUST_PADRAO_1_TEXT : String :=
  "Foi (Foram) excluída(s) a(s) cotação(ões) inferior(es) ao último preço homologado no HUSM para evitar a fixação de preço estimado potencialmente inexequível sob risco de fracasso do certame."

/-- Text of the canned justification `PADRAO_2` (identical in both variants). -/
def JUST_PADRAO_2_TEXT : String :=
  "Foi (Foram) excluída(s) a(s) cotação(ões) inferior(es) ao último preço homologado no HUSM e discrepante da cotação do produto, cuja comercialização é exclusiva de fornecedor específico."

namespace Part002

/-- One raw quotation of `valores_brutos` in `src/unnamed/part_002`. -/
structure RawEntry where
  idx : ℕ
  valor : ℚ
  fonte : String
deriving DecidableEq, Repr

/-- The `PreviewItem` record of `src/unnamed/part_002`. -/
structure PreviewItem where
  item : String
  catmat : String
  n_bruto : ℕ
  n_final : ℕ
  excl_altos : ℕ
  excl_baixos : ℕ
  valor_calculado : Option ℚ
  valores_brutos : List RawEntry
  auto_keep_idx : List ℕ
  auto_excl_altos_idx : List ℕ
  auto_excl_baixos_idx : List ℕ
deriving DecidableEq

/-- The `"media" | "mediana"` method union type. -/
inductive Method
  | media
  | mediana
deriving DecidableEq, Repr

/-- The `ManualOverride` record of `src/unnamed/part_002`. -/
structure ManualOverride where
  includedIndices : List ℕ
  method : Method
  justificativaCodigo : String
  justificativaTexto : String
deriving DecidableEq

/-- The `overrides` React state: a keyed mapping from item id to override. -/
def Overrides : Type := String → Option ManualOverride

/-- The `lastQuotes` React state: raw input text per item id (absent keys are
the empty string, as in `lastQuotes[it.item] || ""`). -/
def LastQuotes : Type := String → String

/-- `mean(vals)` of `src/unnamed/part_002`: `reduce((a, b) => a + b, 0)`
divided by the length, `null` on the empty list. -/
def mean (vals : List ℚ) : Option ℚ :=
  if vals.length = 0 then none
  else some (vals.foldl (fun a b => a + b) 0 / (vals.length : ℚ))

/-- `median(vals)` of `src/unnamed/part_002`: copy, sort ascending, middle
element for odd length, average of the two middle elements for even length,
`null` on the empty list.  The `getD` default is never read: both positions
are in bounds for a non-empty list. -/
def median (vals : List ℚ) : Option ℚ :=
  if vals.length = 0 then none
  else
    let s := sortAsc vals
    let mid := s.length / 2
    if s.length % 2 = 1 then some (s.getD mid 0)
    else some ((s.getD (mid - 1) 0 + s.getD mid 0) / 2)

/-- `cv(vals)` of `src/unnamed/part_002`: population standard deviation over
the mean, `null` when the mean is `null` or zero. -/
noncomputable def cv (vals : List ℚ) : Option ℝ :=
  match mean vals with
  | none => none
  | some m =>
    if m = 0 then none
    else
      let variance : ℚ := vals.foldl (fun acc v => acc + (v - m) * (v - m)) 0 / (vals.length : ℚ)
      some (Real.sqrt (variance : ℚ) / (m : ℝ))

/-- The `JUST_OPTIONS` dictionary of canned justification texts. -/
def JUST_OPTIONS (code : String) : Option String :=
  if code = "PADRAO_1" then some JUST_PADRAO_1_TEXT
  else if code = "PADRAO_2" then some JUST_PADRAO_2_TEXT
  else none

/-- The eligibility expression
`last !== null && last > 0 && calc !== null && calc <= 1.2 * last`
(the local `calc` of the source is named `calcv` here, `calc` being reserved),
used identically in `tableRows` and `openManualModal`. -/
def eligible (last calcv : Option ℚ) : Bool :=
  match last, calcv with
  | some l, some c => decide (0 < l) && decide (c ≤ 1.2 * l)
  | _, _ => false

/-- The button colour of a row, the string union
`"red" | "yellow" | "none" | "green"`. -/
inductive AdjustColor
  | red
  | yellow
  | none
  | green
deriving DecidableEq, Repr

/-- The derived row produced by `tableRows` (the fields computed from the
item; the spread copy of the raw `PreviewItem` fields is represented by
`item` and `valor_calculado`, the two that the computation reads back). -/
structure Row where
  item : String
  valor_calculado : Option ℚ
  last : Option ℚ
  eligible : Bool
  allowManual : Bool
  adjustColor : AdjustColor
  modo : String
  metodo : String
  valorFinal : Option ℚ
  diffAbs : Option ℚ
  hasOverride : Bool

/-- The `Map` from entry index to value built in `tableRows` by successive
`set` calls; on duplicate indices the last entry wins, hence the lookup in
the reversed list. -/
def idxToVal (entries : List RawEntry) (i : ℕ) : Option ℚ :=
  (entries.reverse.find? (fun e => e.idx == i)).map (·.valor)

/-- The body of the `tableRows` map for a single item.  The
`typeof v === "number" && Number.isFinite(v)` filter on looked-up values
drops exactly the failed lookups in the rational model, hence `filterMap`. -/
def rowFor (lastQuotes : LastQuotes) (overrides : Overrides) (it : PreviewItem) : Row :=
  let last := parseBRL (lastQuotes it.item)
  let calcv := it.valor_calculado
  let ov := overrides it.item
  let elig := eligible last calcv
  let allowManual := elig || ov.isSome
  let adjustColor :=
    match ov, last, calcv with
    | some _, _, _ => AdjustColor.green
    | Option.none, some l, some c =>
      if elig then (if c < l then AdjustColor.red else AdjustColor.yellow) else AdjustColor.none
    | Option.none, _, _ => AdjustColor.none
  match ov with
  | Option.none =>
    { item := it.item, valor_calculado := calcv, last := last, eligible := elig,
      allowManual := allowManual, adjustColor := adjustColor,
      modo := "Automático", metodo := "", valorFinal := calcv,
      diffAbs := match last, calcv with
        | some l, some v => some (v - l)
        | _, _ => Option.none,
      hasOverride := false }
  | some o =>
    let included := o.includedIndices.filterMap (idxToVal it.valores_brutos)
    let vf := match o.method with
      | Method.media => mean included
      | Method.mediana => median included
    { item := it.item, valor_calculado := calcv, last := last, eligible := elig,
      allowManual := allowManual, adjustColor := adjustColor,
      modo := "Manual",
      metodo := match o.method with
        | Method.media => "Média"
        | Method.mediana => "Mediana",
      valorFinal := vf,
      diffAbs := match last, vf with
        | some l, some v => some (v - l)
        | _, _ => Option.none,
      hasOverride := true }

/-- The full `tableRows` memo: one derived row per preview item. -/
def tableRows (preview : List PreviewItem) (lastQuotes : LastQuotes)
    (overrides : Overrides) : List Row :=
  preview.map (rowFor lastQuotes overrides)

/-- The modal state set by `openManualModal`
(`modalSelected`, `modalMethod`, `modalJustCode`, `modalJustText`). -/
structure Modal where
  selected : List ℕ
  method : Method
  justCode : String
  justText : String
deriving DecidableEq

/-- `openManualModal`: returns `none` when the early guard fires (not
eligible and no existing override, so the dialog does not open), otherwise
the modal state after initialisation: an existing override is loaded as is;
otherwise the auto-kept indices (all indices when that set is empty) are
pre-selected and the method is suggested from the CV of all raw values. -/
noncomputable def openManualModal (overrides : Overrides) (lastQuotes : LastQuotes)
    (it : PreviewItem) : Option Modal :=
  let existing := overrides it.item
  let last := parseBRL (lastQuotes it.item)
  let calcv := it.valor_calculado
  let elig := eligible last calcv
  if !elig && existing.isNone then none
  else some <|
    match existing with
    | some ov =>
      { selected := ov.includedIndices, method := ov.method,
        justCode := ov.justificativaCodigo, justText := ov.justificativaTexto }
    | Option.none =>
      let suggestedIdx :=
        if it.auto_keep_idx.length ≠ 0 then it.auto_keep_idx
        else it.valores_brutos.map (·.idx)
      let baseCv := cv (it.valores_brutos.map (·.valor))
      let suggested :=
        match baseCv with
        | Option.none => Method.mediana
        | some c => if c < 0.25 then Method.media else Method.mediana
      { selected := suggestedIdx, method := suggested, justCode := "", justText := "" }

/-- `toggleModalIndex`: remove every occurrence of a present index, insert an
absent one and re-sort ascending. -/
def toggleModalIndex (idx : ℕ) (prev : List ℕ) : List ℕ :=
  if idx ∈ prev then prev.filter (fun x => x != idx)
  else sortAsc (prev ++ [idx])

/-- Result of a save or reject: the override collection, the status banner
and whether the modal was saved-and-closed. -/
structure SaveResult where
  overrides : Overrides
  status : String
  saved : Bool

/-- `saveManualOverride` of `src/unnamed/part_002`: no-op without a modal
item; rejection with a message on an empty selection; otherwise the canned
text (for a code other than `OUTRO`) or the free text becomes the stored
justification and the override for the item is replaced. -/
def saveManualOverride (modalItem : Option PreviewItem) (m : Modal)
    (overrides : Overrides) (status : String) : SaveResult :=
  match modalItem with
  | Option.none => { overrides := overrides, status := status, saved := false }
  | some it =>
    if m.selected.length = 0 then
      { overrides := overrides,
        status := "Selecione ao menos 1 valor para o cálculo manual.",
        saved := false }
    else
      let finalJustText :=
        if m.justCode ≠ "" ∧ m.justCode ≠ "OUTRO" then (JUST_OPTIONS m.justCode).getD ""
        else m.justText
      { overrides := fun id =>
          if id = it.item then
            some { includedIndices := sortAsc m.selected, method := m.method,
                   justificativaCodigo := m.justCode, justificativaTexto := finalJustText }
          else overrides id,
        status := status, saved := true }

/-- `clearManualOverride`: delete the item key from the collection. -/
def clearManualOverride (itemId : String) (overrides : Overrides) : Overrides :=
  fun id => if id = itemId then none else overrides id

end Part002

namespace Precos

/-- One raw quotation shown in the manual modal of
`src/app/(auth)/precos/page.tsx`. -/
structure ManualEntry where
  idx : ℕ
  valor : ℚ
  fonte : String
deriving DecidableEq, Repr

/-- The `OverrideData` record of `src/app/(auth)/precos/page.tsx`; `modo` is
always the literal `"Manual"` when stored. -/
structure OverrideData where
  modo : String
  selecionados : List ℕ
  justificativa : String
deriving DecidableEq

/-- The override collection keyed by item id. -/
def Overrides : Type := String → Option OverrideData

/-- The slice of `ManualModalState` that the save and toggle logic reads
(`open`, the auto sets and the unused `justificativa` field are omitted). -/
structure ManualModalState where
  itemId : String
  entries : List ManualEntry
  selected : Finset ℕ
  justificativaOutro : String
  justificativaSelected : String

/-- The button colour union `"red" | "yellow" | "green" | "disabled"`. -/
inductive BtnColor
  | red
  | yellow
  | green
  | disabled
deriving DecidableEq, Repr

/-- Return value of `getAdjustButtonState`. -/
structure BtnState where
  enabled : Bool
  color : BtnColor
deriving DecidableEq, Repr

/-- `getAdjustButtonState` of `src/app/(auth)/precos/page.tsx`: green when an
override is stored; otherwise disabled unless both the parsed last quote and
the final value are present; red when the last quote exceeds the final value;
yellow when the final value is within 1.2 times the last quote. -/
def getAdjustButtonState (overrides : Overrides) (lastQuotes : String → String)
    (itemId : String) (valorFinal : Option ℚ) : BtnState :=
  match overrides itemId with
  | some ov =>
    if ov.modo = "Manual" then { enabled := true, color := BtnColor.green }
    else restOf overrides lastQuotes itemId valorFinal
  | none => restOf overrides lastQuotes itemId valorFinal
where
  /-- The fall-through part after the `ov?.modo === "Manual"` early return. -/
  restOf (_ : Overrides) (lastQuotes : String → String) (itemId : String)
      (valorFinal : Option ℚ) : BtnState :=
    match parseBRL (lastQuotes itemId), valorFinal with
    | some last, some vf =>
      if last > vf then { enabled := true, color := BtnColor.red }
      else if vf ≤ 1.2 * last then { enabled := true, color := BtnColor.yellow }
      else { enabled := false, color := BtnColor.disabled }
    | _, _ => { enabled := false, color := BtnColor.disabled }

/-- The statistics record returned by `computeStatsFromSelected`. -/
structure Stats where
  n : ℕ
  mean : Option ℚ
  median : Option ℚ
  cv : Option ℝ

/-- `computeStatsFromSelected` of `src/app/(auth)/precos/page.tsx`: the
selected entries, their values sorted ascending (the `Number.isFinite`
filter drops nothing in the rational model), then count, mean, median
(middle or average of the two middles) and CV (null when the mean is 0),
with `Math.pow(x - mean, 2)` in the variance. -/
noncomputable def computeStatsFromSelected (entries : List ManualEntry)
    (selectedIdx : Finset ℕ) : Stats :=
  let arr := sortAsc ((entries.filter (fun e => decide (e.idx ∈ selectedIdx))).map (·.valor))
  let n := arr.length
  if n = 0 then { n := 0, mean := none, median := none, cv := none }
  else
    let mean : ℚ := arr.foldl (fun a b => a + b) 0 / (n : ℚ)
    let median : ℚ :=
      if n % 2 = 1 then arr.getD ((n - 1) / 2) 0
      else (arr.getD (n / 2 - 1) 0 + arr.getD (n / 2) 0) / 2
    let variance : ℚ := arr.foldl (fun acc x => acc + (x - mean) ^ 2) 0 / (n : ℚ)
    let std : ℝ := Real.sqrt (variance : ℚ)
    let cv : Option ℝ := if mean ≠ 0 then some (std / (mean : ℝ)) else none
    { n := n, mean := some mean, median := some median, cv := cv }

/-- `toggleSelect` of `src/app/(auth)/precos/page.tsx`, on the selection
`Set`: delete a present index, add an absent one. -/
def toggleSelect (idx : ℕ) (prev : Finset ℕ) : Finset ℕ :=
  if idx ∈ prev then prev.erase idx else insert idx prev

/-- Result of a save or reject on the precos page. -/
structure SaveResult where
  overrides : Overrides
  status : String
  saved : Bool

/-- `saveManualOverride` of `src/app/(auth)/precos/page.tsx`: rejected with a
message when no selected entry remains, or when the resolved justification
(the trimmed free text for `OUTRO`, the trimmed dropdown value otherwise) is
empty; on success the item key is replaced with the sorted selection and the
resolved justification. -/
noncomputable def saveManualOverride (m : ManualModalState) (overrides : Overrides)
    (status : String) : SaveResult :=
  let stats := computeStatsFromSelected m.entries m.selected
  if stats.n = 0 then
    { overrides := overrides,
      status := "Selecione ao menos 1 valor para salvar o ajuste manual.",
      saved := false }
  else
    let justificativaFinal :=
      if m.justificativaSelected = "OUTRO" then jsTrim m.justificativaOutro
      else jsTrim m.justificativaSelected
    if justificativaFinal = "" then
      { overrides := overrides,
        status := "Selecione uma justificativa ou preencha \x27Outro\x27.",
        saved := false }
    else
      { overrides := fun id =>
          if id = m.itemId then
            some { modo := "Manual",
                   selecionados := m.selected.sort (fun a b => a ≤ b),
                   justificativa := justificativaFinal }
          else overrides id,
        status := status, saved := true }

/-- `clearManualOverride` of `src/app/(auth)/precos/page.tsx`. -/
def clearManualOverride (itemId : String) (overrides : Overrides) : Overrides :=
  fun id => if id = itemId then none else overrides id

end Precos

/-!
Specification-side definitions.  These are written from the wording of the
specification (not from the source) and are compared with the embedded code
in the claim theorems.
-/

/-- Eligibility for manual override as the specification words it: the
parsed last quoted price is present and strictly positive, the automatic
value is present (finiteness is automatic in the rational model), and the
automatic value is at most 1.2 times the last quoted price. -/
def eligibleSpec (last calcv : Option ℚ) : Prop :=
  ∃ l c, last = some l ∧ calcv = some c ∧ 0 < l ∧ c ≤ 1.2 * l

/-- The four mutually exclusive row states of the specification. -/
inductive RowState
  | OVERRIDDEN
  | NEEDS_ATTENTION
  | WITHIN_TOLERANCE
  | LOCKED
deriving DecidableEq, Repr

/-- Row classification as the specification words it, in precedence order:
overridden, then needs-attention (eligible, automatic value below the last
price), then within-tolerance (eligible, automatic value at or above the
last price), then locked. -/
def classifySpec (hasOverride : Bool) (last calcv : Option ℚ) : RowState :=
  if hasOverride then RowState.OVERRIDDEN
  else
    match last, calcv with
    | some l, some c =>
      if 0 < l ∧ c ≤ 1.2 * l then
        (if c < l then RowState.NEEDS_ATTENTION else RowState.WITHIN_TOLERANCE)
      else RowState.LOCKED
    | _, _ => RowState.LOCKED

/-- The button colour displayed for each specification state. -/
def colorOf : RowState → Part002.AdjustColor
  | RowState.OVERRIDDEN => Part002.AdjustColor.green
  | RowState.NEEDS_ATTENTION => Part002.AdjustColor.red
  | RowState.WITHIN_TOLERANCE => Part002.AdjustColor.yellow
  | RowState.LOCKED => Part002.AdjustColor.none

/-- Materialized final value as the specification words it: the automatic
value without an override; otherwise the raw entries are filtered to those
whose index is in the override's included set and aggregated by the chosen
method. -/
def finalValueSpec (it : Part002.PreviewItem) (ov : Option Part002.ManualOverride) : Option ℚ :=
  match ov with
  | none => it.valor_calculado
  | some o =>
    let included := (it.valores_brutos.filter (fun e => decide (e.idx ∈ o.includedIndices))).map (·.valor)
    match o.method with
    | Part002.Method.media => Part002.mean included
    | Part002.Method.mediana => Part002.median included

/-- Resolved justification as the specification words it: the canned
option's fixed text, or the trimmed free text when `OUTRO` is selected. -/
def resolvedJustification (m : Precos.ManualModalState) : String :=
  if m.justificativaSelected = "OUTRO" then jsTrim m.justificativaOutro
  else m.justificativaSelected

/-- Method suggestion of the amended C6: median when the CV is at least 0.25
or not computable, mean otherwise. -/
noncomputable def suggestedMethodSpec (c : Option ℝ) : Part002.Method :=
  match c with
  | none => Part002.Method.mediana
  | some x => if 0.25 ≤ x then Part002.Method.mediana else Part002.Method.media

/-- Modal initialisation of the amended C6: an existing override is loaded
as is; otherwise the auto-kept indices (all raw indices when the keep-set is
empty) are pre-selected and the method is suggested from the CV of all raw
entry values. -/
noncomputable def openModalSpec (overrides : Part002.Overrides)
    (it : Part002.PreviewItem) : Part002.Modal :=
  match overrides it.item with
  | some o =>
    { selected := o.includedIndices, method := o.method,
      justCode := o.justificativaCodigo, justText := o.justificativaTexto }
  | none =>
    { selected := if it.auto_keep_idx.length ≠ 0 then it.auto_keep_idx
                  else it.valores_brutos.map (·.idx),
      method := suggestedMethodSpec (Part002.cv (it.valores_brutos.map (·.valor))),
      justCode := "", justText := "" }

/-- The candidate included values named by C6: the values of the entries
whose index is pre-selected (the auto-kept indices, or all raw indices when
the keep-set is empty). -/
def candidateIncludedValues (it : Part002.PreviewItem) : List ℚ :=
  let pre := if it.auto_keep_idx.length ≠ 0 then it.auto_keep_idx
             else it.valores_brutos.map (·.idx)
  (it.valores_brutos.filter (fun e => decide (e.idx ∈ pre))).map (·.valor)

/-- The method clause of C6 exactly as stated: on opening the dialog with no
existing override, the pre-selected method is median precisely when the
coefficient of variation over the candidate included values is at least
0.25. -/
def claimC6MethodClause : Prop :=
  ∀ (ovs : Part002.Overrides) (lq : Part002.LastQuotes) (it : Part002.PreviewItem)
    (m : Part002.Modal),
    ovs it.item = none →
    Part002.openManualModal ovs lq it = some m →
    (m.method = Part002.Method.mediana ↔
      ∃ c, Part002.cv (candidateIncludedValues it) = some c ∧ (0.25 : ℝ) ≤ c)

/-!
Concrete fixtures used by counterexamples and witnesses.
-/

/-- Item refuting C6's method clause: the raw values are `[10, 10, 10, 100]`
and the automatic keep-set retains the three equal low values, so the CV of
the candidate included values is 0 while the CV of all raw values is large. -/
def itC6 : Part002.PreviewItem :=
  { item := "C6", catmat := "", n_bruto := 4, n_final := 3, excl_altos := 1,
    excl_baixos := 0, valor_calculado := some 10,
    valores_brutos := [⟨0, 10, ""⟩, ⟨1, 10, ""⟩, ⟨2, 10, ""⟩, ⟨3, 100, ""⟩],
    auto_keep_idx := [0, 1, 2], auto_excl_altos_idx := [3], auto_excl_baixos_idx := [] }

/-- Override collection holding one override for `itC6`, used to exercise
the override-reload branch of the dialog. -/
def ovsC6 : Part002.Overrides :=
  fun id => if id = "C6" then some ⟨[0, 2], Part002.Method.mediana, "OUTRO", "texto livre"⟩
            else none

/-- Item for the C5 round-trip: entries `10, 12, 11` at indices `0, 1, 2`. -/
def itEx : Part002.PreviewItem :=
  { item := "EX", catmat := "", n_bruto := 3, n_final := 3, excl_altos := 0,
    excl_baixos := 0, valor_calculado := some 11,
    valores_brutos := [⟨0, 10, ""⟩, ⟨1, 12, ""⟩, ⟨2, 11, ""⟩],
    auto_keep_idx := [0, 1, 2], auto_excl_altos_idx := [], auto_excl_baixos_idx := [] }

/-- Modal selection `[2, 0, 1]` from the C5 round-trip example. -/
def mEx : Part002.Modal :=
  { selected := [2, 0, 1], method := Part002.Method.media, justCode := "", justText := "" }

/-- Modal state for the C4 witness: one entry, selected, canned text. -/
def mC4 : Precos.ManualModalState :=
  { itemId := "C4", entries := [⟨0, 10, ""⟩], selected := {0},
    justificativaOutro := "", justificativaSelected := JUST_PADRAO_1_TEXT }

/-!
Helper lemmas about the sorting and aggregation primitives.
-/

theorem sortAsc_perm {α : Type} [LinearOrder α] (l : List α) : (sortAsc l).Perm l :=
  List.perm_insertionSort _ l

theorem sortAsc_sorted {α : Type} [LinearOrder α] (l : List α) :
    List.Sorted (· ≤ ·) (sortAsc l) :=
  List.sorted_insertionSort _ l

theorem sortAsc_eq_of_perm {α : Type} [LinearOrder α] {l₁ l₂ : List α} (h : l₁.Perm l₂) :
    sortAsc l₁ = sortAsc l₂ :=
  List.eq_of_perm_of_sorted ((sortAsc_perm l₁).trans (h.trans (sortAsc_perm l₂).symm))
    (sortAsc_sorted l₁) (sortAsc_sorted l₂)

theorem sortAsc_eq_self {α : Type} [LinearOrder α] {l : List α} (h : List.Sorted (· ≤ ·) l) :
    sortAsc l = l :=
  List.eq_of_perm_of_sorted (sortAsc_perm l) (sortAsc_sorted l) h

theorem sortAsc_nodup {α : Type} [LinearOrder α] {l : List α} (h : l.Nodup) :
    (sortAsc l).Nodup :=
  (sortAsc_perm l).nodup_iff.mpr h

theorem mem_sortAsc {α : Type} [LinearOrder α] {l : List α} {a : α} :
    a ∈ sortAsc l ↔ a ∈ l :=
  (sortAsc_perm l).mem_iff

theorem sortAsc_length {α : Type} [LinearOrder α] (l : List α) :
    (sortAsc l).length = l.length :=
  (sortAsc_perm l).length_eq

theorem foldl_add_sum (l : List ℚ) (a : ℚ) : l.foldl (fun x y => x + y) a = a + l.sum := by
  induction l generalizing a with
  | nil => simp
  | cons x xs ih => simp [ih, add_assoc]

theorem foldl_add_map (f : ℚ → ℚ) (l : List ℚ) (a : ℚ) :
    l.foldl (fun acc v => acc + f v) a = a + (l.map f).sum := by
  induction l generalizing a with
  | nil => simp
  | cons x xs ih => simp [ih, add_assoc]

theorem mean_eq (vals : List ℚ) :
    Part002.mean vals = if vals.length = 0 then none
      else some (vals.sum / (vals.length : ℚ)) := by
  unfold Part002.mean
  rw [foldl_add_sum]
  simp

theorem mean_perm {l₁ l₂ : List ℚ} (h : l₁.Perm l₂) : Part002.mean l₁ = Part002.mean l₂ := by
  rw [mean_eq, mean_eq, h.length_eq, h.sum_eq]

theorem median_perm {l₁ l₂ : List ℚ} (h : l₁.Perm l₂) :
    Part002.median l₁ = Part002.median l₂ := by
  unfold Part002.median
  rw [h.length_eq, sortAsc_eq_of_perm h]

/-!
Lemmas connecting the index map of `tableRows` with the entry filter of the
specification.
-/

theorem idxToVal_nil (i : ℕ) : Part002.idxToVal [] i = none := rfl

theorem idxToVal_cons {e : Part002.RawEntry} {es : List Part002.RawEntry}
    (h : e.idx ∉ es.map (·.idx)) (i : ℕ) :
    Part002.idxToVal (e :: es) i =
      if i = e.idx then some e.valor else Part002.idxToVal es i := by
  unfold Part002.idxToVal
  rw [List.reverse_cons, List.find?_append]
  by_cases hi : i = e.idx
  · have h1 : es.reverse.find? (fun x => x.idx == i) = none := by
      apply List.find?_eq_none.mpr
      intro x hx
      have hxm : x ∈ es := List.mem_reverse.mp hx
      have hne : x.idx ≠ i := by
        intro hxe
        apply h
        rw [← hi, ← hxe]
        exact List.mem_map_of_mem (·.idx) hxm
      simpa using hne
    have h2 : (e.idx == i) = true := by simp [hi]
    rw [h1]
    simp [List.find?, h2, hi]
  · have h2 : (e.idx == i) = false := by
      have hne : e.idx ≠ i := fun he => hi he.symm
      simpa using hne
    have h3 : List.find? (fun x => x.idx == i) [e] = none := by
      simp [List.find?, h2]
    rw [h3]
    cases hfind : es.reverse.find? (fun x => x.idx == i) <;> simp [hfind, hi]

theorem filter_idx_map_valor {entries : List Part002.RawEntry}
    (h : (entries.map (·.idx)).Nodup) (i : ℕ) :
    (entries.filter (fun e => e.idx == i)).map (·.valor) =
      (Part002.idxToVal entries i).toList := by
  induction entries with
  | nil => rfl
  | cons e es ih =>
    have hpair : (∀ x ∈ es, ¬ x.idx = e.idx) ∧ (es.map (·.idx)).Nodup := by
      simpa using h
    have hni : e.idx ∉ es.map (·.idx) := by
      simp only [List.mem_map, not_exists]
      intro x hx
      exact hpair.1 x hx.1 hx.2
    rw [idxToVal_cons hni]
    by_cases hi : i = e.idx
    · subst hi
      rw [List.filter_cons]
      simp only [beq_self_eq_true, if_true]
      have hrest : es.filter (fun x => x.idx == e.idx) = [] := by
        apply List.filter_eq_nil_iff.mpr
        intro x hx
        simpa using hpair.1 x hx
      simp [hrest]
    · have hpe : (e.idx == i) = false := by
        have hne : e.idx ≠ i := fun he => hi he.symm
        simpa using hne
      rw [List.filter_cons]
      simp only [hpe, Bool.false_eq_true, if_false]
      rw [ih hpair.2]
      simp [hi]

theorem filter_or_perm {α : Type} (p q : α → Bool) :
    ∀ l : List α, (∀ x ∈ l, ¬(p x = true ∧ q x = true)) →
      (l.filter (fun x => p x || q x)).Perm (l.filter p ++ l.filter q)
  | [], _ => by simp
  | x :: xs, h => by
    have hxs : ∀ y ∈ xs, ¬(p y = true ∧ q y = true) :=
      fun y hy => h y (List.mem_cons_of_mem x hy)
    have ih := filter_or_perm p q xs hxs
    by_cases hp : p x = true
    · have hq : q x = false := by
        cases hqv : q x with
        | false => rfl
        | true => exact absurd ⟨hp, hqv⟩ (h x (List.mem_cons_self x xs))
      simp only [List.filter_cons, hp, hq, Bool.true_or, if_true, Bool.false_eq_true, if_false,
        List.cons_append]
      exact ih.cons x
    · have hp' : p x = false := by
        cases hpv : p x with
        | false => rfl
        | true => exact absurd hpv hp
      by_cases hq : q x = true
      · simp only [List.filter_cons, hp', hq, Bool.false_or, if_true, Bool.false_eq_true, if_false]
        exact (ih.cons x).trans List.perm_middle.symm
      · have hq' : q x = false := by
          cases hqv : q x with
          | false => rfl
          | true => exact absurd hqv hq
        simp only [List.filter_cons, hp', hq', Bool.or_self, Bool.false_eq_true, if_false]
        exact ih

theorem includedVals_perm {entries : List Part002.RawEntry}
    (hent : (entries.map (·.idx)).Nodup) {inc : List ℕ} (hinc : inc.Nodup) :
    (inc.filterMap (Part002.idxToVal entries)).Perm
      ((entries.filter (fun e => decide (e.idx ∈ inc))).map (·.valor)) := by
  induction inc with
  | nil => simp
  | cons i rest ih =>
    have hi : i ∉ rest := (List.nodup_cons.mp hinc).1
    have hrest : rest.Nodup := (List.nodup_cons.mp hinc).2
    have hpred : ∀ e ∈ entries,
        (decide (e.idx ∈ i :: rest)) = ((e.idx == i) || decide (e.idx ∈ rest)) := by
      intro e _
      by_cases h1 : e.idx = i <;> by_cases h2 : e.idx ∈ rest <;> simp [h1, h2]
    have hdisj : ∀ e ∈ entries, ¬((e.idx == i) = true ∧ (decide (e.idx ∈ rest)) = true) := by
      intro e _ hand
      have h1 : e.idx = i := by simpa using hand.1
      have h2 : e.idx ∈ rest := by simpa using hand.2
      exact hi (h1 ▸ h2)
    have hsplit :
        (entries.filter (fun e => decide (e.idx ∈ i :: rest))).Perm
          (entries.filter (fun e => e.idx == i) ++
            entries.filter (fun e => decide (e.idx ∈ rest))) := by
      rw [List.filter_congr hpred]
      exact filter_or_perm _ _ entries hdisj
    rw [List.filterMap_cons]
    have hmap := filter_idx_map_valor hent i
    cases hv : Part002.idxToVal entries i with
    | none =>
      rw [hv] at hmap
      refine (ih hrest).trans ?_
      have hms := (hsplit.map (·.valor)).symm
      rw [List.map_append, hmap] at hms
      simpa using hms
    | some v =>
      rw [hv] at hmap
      refine ((ih hrest).cons v).trans ?_
      have hms := (hsplit.map (·.valor)).symm
      rw [List.map_append, hmap] at hms
      simpa using hms

/-!
Lemmas about the coefficient of variation.
-/

theorem cv_nil : Part002.cv [] = none := by
  simp [Part002.cv, Part002.mean]

theorem cv_of_mean_zero {vals : List ℚ} (h : Part002.mean vals = some 0) :
    Part002.cv vals = none := by
  unfold Part002.cv
  rw [h]
  simp

theorem mean_replicate {x : ℚ} {n : ℕ} (hn : 0 < n) :
    Part002.mean (List.replicate n x) = some x := by
  have hne : n ≠ 0 := Nat.pos_iff_ne_zero.mp hn
  rw [mean_eq]
  simp only [List.length_replicate, List.sum_replicate, hne, if_false]
  rw [nsmul_eq_mul]
  congr 1
  field_simp

theorem cv_replicate {x : ℚ} (hx : x ≠ 0) {n : ℕ} (hn : 0 < n) :
    Part002.cv (List.replicate n x) = some 0 := by
  unfold Part002.cv
  rw [mean_replicate hn]
  have hfold : (List.replicate n x).foldl (fun acc v => acc + (v - x) * (v - x)) 0 = 0 := by
    rw [foldl_add_map (fun v => (v - x) * (v - x))]
    simp
  simp only [hx, if_false, hfold]
  simp

/-!
Projection lemmas for the derived row.
-/

theorem rowFor_eligible (lq : Part002.LastQuotes) (ovs : Part002.Overrides)
    (it : Part002.PreviewItem) :
    (Part002.rowFor lq ovs it).eligible =
      Part002.eligible (parseBRL (lq it.item)) it.valor_calculado := by
  unfold Part002.rowFor
  cases ovs it.item <;> rfl

theorem rowFor_allowManual (lq : Part002.LastQuotes) (ovs : Part002.Overrides)
    (it : Part002.PreviewItem) :
    (Part002.rowFor lq ovs it).allowManual =
      (Part002.eligible (parseBRL (lq it.item)) it.valor_calculado || (ovs it.item).isSome) := by
  unfold Part002.rowFor
  cases ovs it.item <;> rfl

theorem rowFor_adjustColor (lq : Part002.LastQuotes) (ovs : Part002.Overrides)
    (it : Part002.PreviewItem) :
    (Part002.rowFor lq ovs it).adjustColor =
      (match ovs it.item, parseBRL (lq it.item), it.valor_calculado with
       | some _, _, _ => Part002.AdjustColor.green
       | Option.none, some l, some c =>
         if Part002.eligible (some l) (some c) then
           (if c < l then Part002.AdjustColor.red else Part002.AdjustColor.yellow)
         else Part002.AdjustColor.none
       | Option.none, _, _ => Part002.AdjustColor.none) := by
  unfold Part002.rowFor
  cases ovs it.item <;> cases parseBRL (lq it.item) <;> cases it.valor_calculado <;> rfl

theorem rowFor_valorFinal_none (lq : Part002.LastQuotes) (ovs : Part002.Overrides)
    (it : Part002.PreviewItem) (h : ovs it.item = none) :
    (Part002.rowFor lq ovs it).valorFinal = it.valor_calculado := by
  unfold Part002.rowFor
  rw [h]

theorem rowFor_valorFinal_some (lq : Part002.LastQuotes) (ovs : Part002.Overrides)
    (it : Part002.PreviewItem) (o : Part002.ManualOverride) (h : ovs it.item = some o) :
    (Part002.rowFor lq ovs it).valorFinal =
      (match o.method with
       | Part002.Method.media =>
         Part002.mean (o.includedIndices.filterMap (Part002.idxToVal it.valores_brutos))
       | Part002.Method.mediana =>
         Part002.median (o.includedIndices.filterMap (Part002.idxToVal it.valores_brutos))) := by
  unfold Part002.rowFor
  rw [h]

theorem eligible_iff (last calcv : Option ℚ) :
    Part002.eligible last calcv = true ↔ eligibleSpec last calcv := by
  cases last with
  | none => simp [Part002.eligible, eligibleSpec]
  | some l =>
    cases calcv with
    | none => simp [Part002.eligible, eligibleSpec]
    | some c => simp [Part002.eligible, eligibleSpec]

/-!
Claim theorems.
-/

/-- C7: the currency parser strips a leading currency symbol, removes `.` as
thousands separator, replaces `,` by `.` as decimal separator, and returns
null when the input is empty after trimming or the result is not a finite
number; in particular `parseBRL "R$ 1.234,56" = 1234.56`, `parseBRL "" = null`
and `parseBRL "abc" = null`. -/
theorem claim_C7 :
    parseBRL "R$ 1.234,56" = some (1234.56 : ℚ)
    ∧ parseBRL "" = none
    ∧ parseBRL "abc" = none
    ∧ parseBRL "1234,56" = some (1234.56 : ℚ)
    ∧ (∀ s : String, jsTrim s = "" → parseBRL s = none) := by
  have hd1 : digitsToNat ['1', '2', '3', '4'] = 1234 := by decide
  have hd2 : digitsToNat ['5', '6'] = 56 := by decide
  have h1 : parseBRL "R$ 1.234,56" =
      some ((digitsToNat ['1', '2', '3', '4'] : ℚ) +
        (digitsToNat ['5', '6'] : ℚ) / (10 : ℚ) ^ (2 : ℕ)) := rfl
  have h2 : parseBRL "1234,56" =
      some ((digitsToNat ['1', '2', '3', '4'] : ℚ) +
        (digitsToNat ['5', '6'] : ℚ) / (10 : ℚ) ^ (2 : ℕ)) := rfl
  refine ⟨by rw [h1, hd1, hd2]; norm_num, by decide, by decide,
    by rw [h2, hd1, hd2]; norm_num, ?_⟩
  intro s hs
  have hdata : trimChars s.data = [] := by
    have hd : (jsTrim s).data = [] := by rw [hs]
    simpa [jsTrim] using hd
  simp only [parseBRL]
  rw [hdata]
  rfl

/-- Witness for C7 at the whitespace-only input. -/
theorem claim_C7_witness : parseBRL "   " = none :=
  claim_C7.2.2.2.2 "   " (by decide)

/-- C8: mean, median and CV of the empty list are all null; CV is null for
any list with mean exactly zero (such as `[0,0,0]`); CV of a non-empty
constant non-zero list (such as `[10,10,10]`) is 0. -/
theorem claim_C8 :
    Part002.mean [] = none
    ∧ Part002.median [] = none
    ∧ Part002.cv [] = none
    ∧ (∀ vals : List ℚ, Part002.mean vals = some 0 → Part002.cv vals = none)
    ∧ Part002.cv [0, 0, 0] = none
    ∧ (∀ (x : ℚ) (n : ℕ), x ≠ 0 → 0 < n → Part002.cv (List.replicate n x) = some 0)
    ∧ Part002.cv [10, 10, 10] = some 0 := by
  refine ⟨by decide, by decide, cv_nil, fun vals h => cv_of_mean_zero h, ?_,
    fun x n hx hn => cv_replicate hx hn, ?_⟩
  · refine cv_of_mean_zero ?_
    rw [mean_eq]
    norm_num
  · have h : ([10, 10, 10] : List ℚ) = List.replicate 3 10 := rfl
    rw [h]
    exact cv_replicate (by norm_num) (by norm_num)

/-- Witness for C8's quantified parts at concrete lists. -/
theorem claim_C8_witness :
    Part002.cv (List.replicate 3 (5 : ℚ)) = some 0 ∧ Part002.cv [1, -1] = none :=
  ⟨claim_C8.2.2.2.2.2.1 5 3 (by norm_num) (by norm_num),
   claim_C8.2.2.2.1 [1, -1] (by rw [mean_eq]; norm_num)⟩

/-- C9: median sorts ascending and takes the middle element (odd length) or
the mean of the two middle elements (even length); in particular
`median [4,1,3,2] = 2.5` and `median [5,1,3] = 3`. -/
theorem claim_C9 :
    Part002.median [4, 1, 3, 2] = some (2.5 : ℚ)
    ∧ Part002.median [5, 1, 3] = some 3
    ∧ (∀ l₁ l₂ : List ℚ, l₁.Perm l₂ → Part002.median l₁ = Part002.median l₂)
    ∧ (∀ l : List ℚ, List.Sorted (· ≤ ·) l → l.length % 2 = 1 →
        Part002.median l = some (l.getD (l.length / 2) 0))
    ∧ (∀ l : List ℚ, List.Sorted (· ≤ ·) l → l ≠ [] → l.length % 2 = 0 →
        Part002.median l =
          some ((l.getD (l.length / 2 - 1) 0 + l.getD (l.length / 2) 0) / 2)) := by
  have h1 : Part002.median [4, 1, 3, 2] = some (((2 : ℚ) + 3) / 2) := rfl
  refine ⟨by rw [h1]; norm_num, rfl, fun l₁ l₂ h => median_perm h, ?_, ?_⟩
  · intro l hs hodd
    have hne : l.length ≠ 0 := by omega
    simp only [Part002.median, hne, if_false, sortAsc_eq_self hs, hodd, if_true]
  · intro l hs hne h0
    have hlen : l.length ≠ 0 := fun h => hne (List.length_eq_zero.mp h)
    have hnotodd : ¬ l.length % 2 = 1 := by omega
    simp only [Part002.median, hlen, if_false, sortAsc_eq_self hs, hnotodd]

/-- Witness for C9's quantified parts: permutation invariance at a concrete
pair and the sorted odd-length case at `[1, 3, 5]`. -/
theorem claim_C9_witness :
    Part002.median [1, 2, 3, 4] = Part002.median [4, 1, 3, 2]
    ∧ Part002.median [1, 3, 5] =
        some (([1, 3, 5] : List ℚ).getD (([1, 3, 5] : List ℚ).length / 2) 0) :=
  ⟨claim_C9.2.2.1 [1, 2, 3, 4] [4, 1, 3, 2] (by decide),
   claim_C9.2.2.2.1 [1, 3, 5] (by decide) (by decide)⟩

/-- C10: a toggle adds an absent index and removes a present one, leaving
every other index unchanged; toggling twice restores the selection (as a set
of indices, and exactly as a list on the canonical sorted duplicate-free
states); the selection never acquires duplicates. -/
theorem claim_C10 :
    (∀ (prev : List ℕ) (idx x : ℕ), x ∈ Part002.toggleModalIndex idx prev ↔
        ((x ∈ prev ∧ x ≠ idx) ∨ (x = idx ∧ idx ∉ prev)))
    ∧ (∀ (prev : List ℕ) (idx : ℕ), prev.Nodup → (Part002.toggleModalIndex idx prev).Nodup)
    ∧ (∀ (prev : List ℕ) (idx x : ℕ),
        (x ∈ Part002.toggleModalIndex idx (Part002.toggleModalIndex idx prev) ↔ x ∈ prev))
    ∧ (∀ (prev : List ℕ) (idx : ℕ), prev.Nodup → List.Sorted (· ≤ ·) prev →
        Part002.toggleModalIndex idx (Part002.toggleModalIndex idx prev) = prev) := by
  have hmem : ∀ (prev : List ℕ) (idx x : ℕ), x ∈ Part002.toggleModalIndex idx prev ↔
      ((x ∈ prev ∧ x ≠ idx) ∨ (x = idx ∧ idx ∉ prev)) := by
    intro prev idx x
    unfold Part002.toggleModalIndex
    by_cases h : idx ∈ prev
    · rw [if_pos h]
      simp only [List.mem_filter, bne_iff_ne]
      constructor
      · intro hx
        exact Or.inl hx
      · intro hor
        rcases hor with ⟨h1, h2⟩ | ⟨_, h2⟩
        · exact ⟨h1, h2⟩
        · exact absurd h h2
    · rw [if_neg h]
      simp only [mem_sortAsc, List.mem_append, List.mem_singleton]
      constructor
      · intro hor
        rcases hor with h1 | h1
        · exact Or.inl ⟨h1, fun he => h (he ▸ h1)⟩
        · exact Or.inr ⟨h1, h⟩
      · intro hor
        rcases hor with ⟨h1, _⟩ | ⟨h1, _⟩
        · exact Or.inl h1
        · exact Or.inr h1
  have hnodup : ∀ (prev : List ℕ) (idx : ℕ), prev.Nodup →
      (Part002.toggleModalIndex idx prev).Nodup := by
    intro prev idx hnd
    unfold Part002.toggleModalIndex
    by_cases h : idx ∈ prev
    · simp only [h, if_true]
      exact hnd.filter _
    · simp only [h, if_false]
      apply sortAsc_nodup
      rw [List.nodup_append]
      exact ⟨hnd, List.nodup_singleton idx, by simpa using h⟩
  refine ⟨hmem, hnodup, ?_, ?_⟩
  · intro prev idx x
    rw [hmem, hmem, hmem]
    by_cases h1 : idx ∈ prev <;> by_cases h2 : x = idx <;> simp [h1, h2]
  · intro prev idx hnd hsorted
    by_cases h : idx ∈ prev
    · have hstep1 : Part002.toggleModalIndex idx prev = prev.filter (fun x => x != idx) := by
        simp [Part002.toggleModalIndex, h]
      have hout : idx ∉ prev.filter (fun x => x != idx) := by
        simp [List.mem_filter]
      have hstep2 : Part002.toggleModalIndex idx (prev.filter (fun x => x != idx)) =
          sortAsc (prev.filter (fun x => x != idx) ++ [idx]) := by
        simp only [Part002.toggleModalIndex, hout, if_false]
      have hfe : prev.filter (fun x => x != idx) = prev.erase idx := by
        rw [List.Nodup.erase_eq_filter hnd]
      have hperm : (prev.filter (fun x => x != idx) ++ [idx]).Perm prev := by
        rw [hfe]
        exact (List.perm_append_singleton idx _).trans (List.perm_cons_erase h).symm
      rw [hstep1, hstep2, sortAsc_eq_of_perm hperm, sortAsc_eq_self hsorted]
    · have hstep1 : Part002.toggleModalIndex idx prev = sortAsc (prev ++ [idx]) := by
        simp only [Part002.toggleModalIndex, h, if_false]
      have hin : idx ∈ sortAsc (prev ++ [idx]) := by
        rw [mem_sortAsc]
        simp
      have hstep2 : Part002.toggleModalIndex idx (sortAsc (prev ++ [idx])) =
          (sortAsc (prev ++ [idx])).filter (fun x => x != idx) := by
        simp only [Part002.toggleModalIndex, hin, if_true]
      have hfilter_eq : (prev ++ [idx]).filter (fun x => x != idx) = prev := by
        rw [List.filter_append]
        have h1 : prev.filter (fun x => x != idx) = prev := by
          apply List.filter_eq_self.mpr
          intro a ha
          simp only [bne_iff_ne, ne_eq, decide_not, Bool.not_eq_false', decide_eq_true_eq]
          intro he
          exact h (he ▸ ha)
        have h2 : ([idx] : List ℕ).filter (fun x => x != idx) = [] := by simp
        rw [h1, h2, List.append_nil]
      have hperm : ((sortAsc (prev ++ [idx])).filter (fun x => x != idx)).Perm prev := by
        have := (sortAsc_perm (prev ++ [idx])).filter (fun x => x != idx)
        rw [hfilter_eq] at this
        exact this
      rw [hstep1, hstep2]
      exact List.eq_of_perm_of_sorted hperm ((sortAsc_sorted _).filter _) hsorted

/-- Witness for C10 at a concrete sorted selection. -/
theorem claim_C10_witness :
    (Part002.toggleModalIndex 3 [0, 1, 2]).Nodup
    ∧ Part002.toggleModalIndex 1 (Part002.toggleModalIndex 1 [0, 1, 2]) = [0, 1, 2] :=
  ⟨claim_C10.2.1 [0, 1, 2] 3 (by decide),
   claim_C10.2.2.2 [0, 1, 2] 1 (by decide) (by decide)⟩

/-- C1: a row is eligible for manual override exactly when the parsed last
quoted price is present and strictly positive, the automatic value is
present, and the automatic value is at most 1.2 times the last quoted price;
in particular 120 is eligible against 100, 120.01 is not, and an absent,
zero or negative last quoted price is never eligible. -/
theorem claim_C1 :
    (∀ (lq : Part002.LastQuotes) (ovs : Part002.Overrides) (it : Part002.PreviewItem),
      (Part002.rowFor lq ovs it).eligible = true ↔
        eligibleSpec (parseBRL (lq it.item)) it.valor_calculado)
    ∧ Part002.eligible (some 100) (some 120) = true
    ∧ Part002.eligible (some 100) (some (120.01 : ℚ)) = false
    ∧ (∀ calcv : Option ℚ, Part002.eligible none calcv = false)
    ∧ (∀ (calcv : Option ℚ) (l : ℚ), l ≤ 0 → Part002.eligible (some l) calcv = false) := by
  refine ⟨?_, ?_, ?_, ?_, ?_⟩
  · intro lq ovs it
    rw [rowFor_eligible]
    exact eligible_iff _ _
  · norm_num [Part002.eligible]
  · norm_num [Part002.eligible]
  · intro calcv
    cases calcv <;> rfl
  · intro calcv l hl
    have hnl : ¬ (0 < l) := not_lt.mpr hl
    cases calcv with
    | none => rfl
    | some c => simp [Part002.eligible, hnl]

/-- Witness for C1 at a negative last quoted price. -/
theorem claim_C1_witness : Part002.eligible (some (-5)) (some 120) = false :=
  claim_C1.2.2.2.2 (some 120) (-5) (by norm_num)

/-- C2: the adjustment button colour of a row is the colour of its unique
specification state, in the stated precedence (overridden, needs-attention,
within-tolerance, locked), and the adjustment action is enabled exactly
outside the locked state. -/
theorem claim_C2 :
    ∀ (lq : Part002.LastQuotes) (ovs : Part002.Overrides) (it : Part002.PreviewItem),
      ((Part002.rowFor lq ovs it).adjustColor =
        colorOf (classifySpec (ovs it.item).isSome (parseBRL (lq it.item)) it.valor_calculado))
      ∧ ((Part002.rowFor lq ovs it).allowManual = true ↔
          classifySpec (ovs it.item).isSome (parseBRL (lq it.item)) it.valor_calculado ≠
            RowState.LOCKED) := by
  intro lq ovs it
  rw [rowFor_adjustColor, rowFor_allowManual]
  cases hov : ovs it.item with
  | some o => simp [classifySpec, colorOf]
  | none =>
    cases hl : parseBRL (lq it.item) with
    | none =>
      cases hc : it.valor_calculado <;>
        simp [classifySpec, colorOf, Part002.eligible]
    | some l =>
      cases hc : it.valor_calculado with
      | none => simp [classifySpec, colorOf, Part002.eligible]
      | some c =>
        by_cases h1 : 0 < l
        · by_cases h2 : c ≤ 1.2 * l
          · by_cases h3 : c < l
            · simp [classifySpec, colorOf, Part002.eligible, h1, h2, h3]
            · simp [classifySpec, colorOf, Part002.eligible, h1, h2, h3]
          · simp [classifySpec, colorOf, Part002.eligible, h1, h2]
        · simp [classifySpec, colorOf, Part002.eligible, h1]

/-- C3: the materialized final value is the automatic value when no override
exists; with an override it is the mean (method `media`) or the median
(method `mediana`) of the raw-entry values whose index is in the override's
included set; and a stale override whose indices select no existing entry
yields a null final value (no error). -/
theorem claim_C3 :
    ∀ (lq : Part002.LastQuotes) (ovs : Part002.Overrides) (it : Part002.PreviewItem),
      (it.valores_brutos.map (·.idx)).Nodup →
      (∀ o, ovs it.item = some o → o.includedIndices.Nodup) →
      ((Part002.rowFor lq ovs it).valorFinal = finalValueSpec it (ovs it.item)
       ∧ (∀ o, ovs it.item = some o →
           it.valores_brutos.filter (fun e => decide (e.idx ∈ o.includedIndices)) = [] →
           (Part002.rowFor lq ovs it).valorFinal = none)) := by
  intro lq ovs it hent hinc
  have hmain : (Part002.rowFor lq ovs it).valorFinal = finalValueSpec it (ovs it.item) := by
    cases hov : ovs it.item with
    | none =>
      rw [rowFor_valorFinal_none lq ovs it hov]
      rfl
    | some o =>
      rw [rowFor_valorFinal_some lq ovs it o hov]
      have hperm := includedVals_perm hent (hinc o hov)
      unfold finalValueSpec
      dsimp only
      cases o.method with
      | media =>
        dsimp only
        exact mean_perm hperm
      | mediana =>
        dsimp only
        exact median_perm hperm
  refine ⟨hmain, ?_⟩
  intro o hov hempty
  rw [hmain, hov]
  unfold finalValueSpec
  dsimp only
  rw [hempty]
  cases o.method with
  | media => rfl
  | mediana => rfl

/-- Witness for C3 at a concrete item with a stale override. -/
theorem claim_C3_witness :
    (Part002.rowFor (fun _ => "")
        (fun id => if id = "EX" then some ⟨[7], Part002.Method.media, "", ""⟩ else none)
        itEx).valorFinal =
      finalValueSpec itEx
        ((fun id => if id = "EX" then some ⟨[7], Part002.Method.media, "", ""⟩ else none)
          itEx.item) :=
  (claim_C3 (fun _ => "")
    (fun id => if id = "EX" then some ⟨[7], Part002.Method.media, "", ""⟩ else none)
    itEx (by decide) (by decide)).1

/-- The count field of the modal statistics is the number of selected
entries. -/
theorem stats_n_eq (entries : List Precos.ManualEntry) (sel : Finset ℕ) :
    (Precos.computeStatsFromSelected entries sel).n =
      (entries.filter (fun e => decide (e.idx ∈ sel))).length := by
  unfold Precos.computeStatsFromSelected
  by_cases h : (sortAsc ((entries.filter (fun e => decide (e.idx ∈ sel))).map (·.valor))).length = 0
  · rw [sortAsc_length, List.length_map] at h
    simp [h, sortAsc_length]
  · rw [sortAsc_length, List.length_map] at h
    simp [h, sortAsc_length]

/-- C4: on the precos page, saving succeeds exactly when the selection is
non-empty and the resolved justification (canned fixed text, or trimmed free
text for `OUTRO`) is non-empty; a rejected save surfaces one of the two
validation messages and leaves the override collection exactly unchanged. -/
theorem claim_C4 :
    ∀ (m : Precos.ManualModalState) (ovs : Precos.Overrides) (st : String),
      (∀ i ∈ m.selected, ∃ e ∈ m.entries, e.idx = i) →
      (m.justificativaSelected = "" ∨ m.justificativaSelected = JUST_PADRAO_1_TEXT ∨
        m.justificativaSelected = JUST_PADRAO_2_TEXT ∨ m.justificativaSelected = "OUTRO") →
      (((Precos.saveManualOverride m ovs st).saved = true ↔
         (m.selected.Nonempty ∧ resolvedJustification m ≠ ""))
       ∧ ((Precos.saveManualOverride m ovs st).saved = false →
           (Precos.saveManualOverride m ovs st).overrides = ovs
           ∧ ((Precos.saveManualOverride m ovs st).status =
               "Selecione ao menos 1 valor para salvar o ajuste manual."
              ∨ (Precos.saveManualOverride m ovs st).status =
               "Selecione uma justificativa ou preencha \x27Outro\x27."))) := by
  intro m ovs st hsub hcanned
  have hjust : (if m.justificativaSelected = "OUTRO" then jsTrim m.justificativaOutro
      else jsTrim m.justificativaSelected) = resolvedJustification m := by
    unfold resolvedJustification
    rcases hcanned with h | h | h | h <;> rw [h]
    · rfl
    · exact if_neg (by decide) |>.trans (by decide) |>.trans (if_neg (by decide)).symm
    · exact if_neg (by decide) |>.trans (by decide) |>.trans (if_neg (by decide)).symm
    · rfl
  have hn : (Precos.computeStatsFromSelected m.entries m.selected).n = 0 ↔
      ¬ m.selected.Nonempty := by
    rw [stats_n_eq]
    constructor
    · intro h0 hne
      obtain ⟨i, hi⟩ := hne
      obtain ⟨e, he, hei⟩ := hsub i hi
      have hmem : e ∈ m.entries.filter (fun e => decide (e.idx ∈ m.selected)) :=
        List.mem_filter.mpr ⟨he, by simp [hei, hi]⟩
      rw [List.length_eq_zero] at h0
      rw [h0] at hmem
      exact absurd hmem (List.not_mem_nil e)
    · intro hne
      have hnil : m.entries.filter (fun e => decide (e.idx ∈ m.selected)) = [] := by
        apply List.filter_eq_nil_iff.mpr
        intro e _
        simp only [decide_eq_true_eq]
        exact fun hmem => hne ⟨e.idx, hmem⟩
      rw [hnil]
      rfl
  unfold Precos.saveManualOverride
  by_cases h0 : (Precos.computeStatsFromSelected m.entries m.selected).n = 0
  · rw [if_pos h0]
    refine ⟨?_, fun _ => ⟨rfl, Or.inl rfl⟩⟩
    simp only [Bool.false_eq_true, false_iff]
    intro hcontr
    exact (hn.mp h0) hcontr.1
  · rw [if_neg h0]
    rw [hjust]
    by_cases hj : resolvedJustification m = ""
    · rw [if_pos hj]
      refine ⟨?_, fun _ => ⟨rfl, Or.inr rfl⟩⟩
      simp only [Bool.false_eq_true, false_iff]
      intro hcontr
      exact hcontr.2 hj
    · rw [if_neg hj]
      refine ⟨?_, fun habs => absurd habs (by simp)⟩
      simp only [true_iff]
      refine ⟨?_, hj⟩
      by_contra hne
      exact h0 (hn.mpr hne)

/-- Witness for C4: a canned justification and a one-entry selection save
successfully. -/
theorem claim_C4_witness :
    (Precos.saveManualOverride mC4 (fun _ => none) "").saved = true :=
  ((claim_C4 mC4 (fun _ => none) "" (by decide) (Or.inr (Or.inl rfl))).1).mpr
    ⟨by decide, by decide⟩

/-- C5: a successful save stores the selection sorted ascending and free of
duplicates (saving `[2,0,1]` persists `[0,1,2]`), fully replaces any prior
override for the item and touches no other key; clearing removes the item's
entry, and after save-then-clear the row's final value is again the
automatic value. -/
theorem claim_C5 :
    ∀ (it : Part002.PreviewItem) (m : Part002.Modal) (ovs : Part002.Overrides)
      (st : String) (lq : Part002.LastQuotes),
      m.selected ≠ [] → m.selected.Nodup →
      (((Part002.saveManualOverride (some it) m ovs st).saved = true)
       ∧ (∃ o, (Part002.saveManualOverride (some it) m ovs st).overrides it.item = some o
           ∧ List.Sorted (· ≤ ·) o.includedIndices ∧ o.includedIndices.Nodup
           ∧ o.includedIndices.Perm m.selected ∧ o.method = m.method)
       ∧ (∀ id, id ≠ it.item →
           (Part002.saveManualOverride (some it) m ovs st).overrides id = ovs id)
       ∧ (∀ ovs2 : Part002.Overrides,
           (Part002.saveManualOverride (some it) m ovs2 st).overrides it.item =
             (Part002.saveManualOverride (some it) m ovs st).overrides it.item)
       ∧ (Part002.clearManualOverride it.item
            ((Part002.saveManualOverride (some it) m ovs st).overrides) it.item = none)
       ∧ (∀ id, id ≠ it.item →
           Part002.clearManualOverride it.item
             ((Part002.saveManualOverride (some it) m ovs st).overrides) id =
             (Part002.saveManualOverride (some it) m ovs st).overrides id)
       ∧ ((Part002.rowFor lq
             (Part002.clearManualOverride it.item
               ((Part002.saveManualOverride (some it) m ovs st).overrides)) it).valorFinal =
           it.valor_calculado)) := by
  intro it m ovs st lq hne hnd
  have hlen : ¬ m.selected.length = 0 := by
    intro h
    exact hne (List.length_eq_zero.mp h)
  unfold Part002.saveManualOverride
  dsimp only
  rw [if_neg hlen]
  refine ⟨rfl, ?_, ?_, ?_, ?_, ?_, ?_⟩
  · refine ⟨_, if_pos rfl, ?_, ?_, ?_, rfl⟩
    · exact sortAsc_sorted m.selected
    · exact sortAsc_nodup hnd
    · exact sortAsc_perm m.selected
  · intro id hid
    exact if_neg hid
  · intro ovs2
    simp [hlen]
  · exact if_pos rfl
  · intro id hid
    unfold Part002.clearManualOverride
    rw [if_neg hid]
  · apply rowFor_valorFinal_none
    unfold Part002.clearManualOverride
    exact if_pos rfl

/-- Witness for C5: the round-trip example, selection `[2, 0, 1]`. -/
theorem claim_C5_witness :
    (Part002.saveManualOverride (some itEx) mEx (fun _ => none) "").saved = true :=
  (claim_C5 itEx mEx (fun _ => none) "" (fun _ => "") (by decide) (by decide)).1

/-- The CV of the counterexample item's full raw value list. -/
theorem cv_itC6_raw :
    Part002.cv [10, 10, 10, 100] =
      some (Real.sqrt ((6075 / 4 : ℚ) : ℝ) / ((65 / 2 : ℚ) : ℝ)) := by
  have hmean : Part002.mean [10, 10, 10, 100] = some (65 / 2) := by
    rw [mean_eq]
    simp [List.sum_cons]
    norm_num
  have hfold : ([10, 10, 10, 100] : List ℚ).foldl
      (fun acc v => acc + (v - 65 / 2) * (v - 65 / 2)) 0 = 6075 := by
    simp [List.foldl]
    norm_num
  unfold Part002.cv
  rw [hmean]
  dsimp only
  rw [if_neg (by norm_num : ¬ (65 / 2 : ℚ) = 0)]
  rw [hfold]
  norm_num

/-- The suggestion comparison at the counterexample item: the CV of all raw
values is not below 0.25. -/
theorem cv_itC6_not_lt :
    ¬ (Real.sqrt ((6075 / 4 : ℚ) : ℝ) / ((65 / 2 : ℚ) : ℝ) < 0.25) := by
  rw [not_lt]
  have hpos : (0 : ℝ) < ((65 / 2 : ℚ) : ℝ) := by
    push_cast
    norm_num
  rw [le_div_iff₀ hpos]
  have h := (Real.le_sqrt (by push_cast; norm_num) (by push_cast; norm_num)).mpr
    (show ((0.25 : ℝ) * ((65 / 2 : ℚ) : ℝ)) ^ 2 ≤ ((6075 / 4 : ℚ) : ℝ) by push_cast; norm_num)
  exact h

/-- Opening the dialog on the counterexample item suggests the median. -/
theorem openManualModal_itC6 :
    Part002.openManualModal (fun _ => none) (fun _ => "100") itC6 =
      some ⟨[0, 1, 2], Part002.Method.mediana, "", ""⟩ := by
  have hbrl : parseBRL "100" = some 100 := by
    have h1 : parseBRL "100" = some ((digitsToNat ['1', '0', '0'] : ℚ)) := rfl
    have h2 : digitsToNat ['1', '0', '0'] = 100 := by decide
    rw [h1, h2]
    norm_num
  have helig : Part002.eligible (parseBRL "100") (some 10) = true := by
    rw [hbrl]
    simp only [Part002.eligible, Bool.and_eq_true, decide_eq_true_eq]
    norm_num
  unfold Part002.openManualModal
  simp only [itC6] at helig ⊢
  rw [helig]
  have hmapv : List.map (fun x => x.valor)
      ([⟨0, 10, ""⟩, ⟨1, 10, ""⟩, ⟨2, 10, ""⟩, ⟨3, 100, ""⟩] : List Part002.RawEntry) =
      [10, 10, 10, 100] := rfl
  rw [hmapv, cv_itC6_raw]
  dsimp only
  rw [if_neg cv_itC6_not_lt]
  simp

/-- Counterexample to C6: the claim ties the suggested method to the CV of
the candidate included values, but the code computes the CV of all raw
values.  On `itC6` the candidate included values `[10, 10, 10]` have CV 0,
below the 0.25 threshold, yet the dialog opens with the median
pre-selected. -/
theorem claim_C6_counterexample : ¬ claimC6MethodClause := by
  intro hclaim
  have h := hclaim (fun _ => none) (fun _ => "100") itC6
    ⟨[0, 1, 2], Part002.Method.mediana, "", ""⟩ rfl openManualModal_itC6
  have hcand : candidateIncludedValues itC6 = [10, 10, 10] := rfl
  have hrepl : ([10, 10, 10] : List ℚ) = List.replicate 3 10 := rfl
  have hcv3 : Part002.cv [10, 10, 10] = some 0 := by
    rw [hrepl]
    exact cv_replicate (by norm_num) (by norm_num)
  obtain ⟨c, hc, hge⟩ := h.mp rfl
  rw [hcand, hcv3] at hc
  have hc0 : (0 : ℝ) = c := Option.some.inj hc
  rw [← hc0] at hge
  norm_num at hge

/-- C6 as amended: the dialog opens with the existing override's selection
and method when one exists; otherwise it pre-selects the auto-kept indices
(all raw indices when the keep-set is empty) and suggests the median exactly
when the CV over all raw entry values is at least 0.25 or is not computable,
the mean otherwise. -/
theorem claim_C6 :
    ∀ (ovs : Part002.Overrides) (lq : Part002.LastQuotes) (it : Part002.PreviewItem),
      (Part002.eligible (parseBRL (lq it.item)) it.valor_calculado = true ∨
        (ovs it.item).isSome = true) →
      Part002.openManualModal ovs lq it = some (openModalSpec ovs it) := by
  intro ovs lq it h
  unfold Part002.openManualModal openModalSpec
  cases hov : ovs it.item with
  | some o => simp
  | none =>
    have helig : Part002.eligible (parseBRL (lq it.item)) it.valor_calculado = true := by
      rcases h with h | h
      · exact h
      · rw [hov] at h
        simp at h
    dsimp only
    rw [helig]
    cases hcv : Part002.cv (it.valores_brutos.map (·.valor)) with
    | none => simp [suggestedMethodSpec]
    | some c =>
      by_cases hlt : c < 0.25
      · simp [suggestedMethodSpec, hlt, not_le.mpr hlt]
      · simp [suggestedMethodSpec, hlt, not_lt.mp hlt]

/-- Witness for the amended C6: reopening an item with a stored override
loads that override into the dialog. -/
theorem claim_C6_witness :
    Part002.openManualModal ovsC6 (fun _ => "") itC6 = some (openModalSpec ovsC6 itC6) :=
  claim_C6 ovsC6 (fun _ => "") itC6 (Or.inr rfl)
